import Mathlib

/-!
Shallow embedding of the fdmm-tools visitor regeneration script
(regenerateVisitor.js and its evolved variant) and proofs about its merge
engine.  Lines of a visitor file are modelled as `List String`; the JS `Map`
holding stub functions is modelled as an association list built only through
`amSet`, which mirrors `Map.prototype.set`; the JS `Set` holding imports is
modelled as a duplicate-free list built through `setAdd`.
-/

namespace FdmmTools

/-- A stub body: the lines strictly between the declaring line of a stub and
its closing line. -/
abbrev Body := List String

/-- The `functions` field of a visitor: a JS `Map` from stub name to body,
modelled as an association list in insertion order.  A JS `Map` never holds
duplicate keys; every map built here is built with `amSet`, which preserves
that. -/
abbrev FnMap := List (String × Body)

/-- The empty string. -/
def emptyLine : String := ""

/-- The stub-declaration marker tested by `populateVisitorFunctions` and
`mergeLines` via `includes`. -/
def markerStr : String := "function(ctx)"

/-- The import marker tested by `populateVisitorImports` via `includes`. -/
def requireStr : String := "require("

/-- The opening block delimiter counted by `getFunctionBody`. -/
def openBraceChar : Char := '\x7b'

/-- The closing block delimiter counted by `getFunctionBody`. -/
def closeBraceChar : Char := '\x7d'

/-- The assignment character searched by `indexOf` when deriving a stub name. -/
def eqChar : Char := '='

/-- Containment of `needle` as a contiguous run of `hay`, the semantics of the
JS `includes` test on strings. -/
def containsSeq : List Char → List Char → Bool
  | n, [] => n.isEmpty
  | n, c :: rest => n.isPrefixOf (c :: rest) || containsSeq n rest

/-- A line matches the stub-declaration pattern. -/
def hasMarker (l : String) : Bool :=
  containsSeq markerStr.toList l.toList

/-- A line matches the import-declaration pattern. -/
def hasRequire (l : String) : Bool :=
  containsSeq requireStr.toList l.toList

/-- Stub-name derivation of `populateVisitorFunctions`: the JS expression
substring of the line from 0 to one less than the index of the first
assignment character.  When that character is absent, `indexOf` yields -1 and
`substring` clamps the negative end index to 0, so the derived name is empty;
when present at index k, the characters up to index k - 2 are kept. -/
def functionName (l : String) : String :=
  if l.toList.contains eqChar then
    String.mk (l.toList.take (l.toList.findIdx (fun c => c == eqChar) - 1))
  else emptyLine

/-- Per-line depth contribution of `getFunctionBody`: a line containing at
least one opening delimiter increments once and a line containing at least one
closing delimiter decrements once, regardless of how many occurrences the line
holds, because the source tests `includes` rather than counting. -/
def braceDelta (l : String) : Int :=
  (if l.toList.contains openBraceChar then 1 else 0)
    - (if l.toList.contains closeBraceChar then 1 else 0)

/-- The do/while loop of `getFunctionBody`: push the current line, update the
running count, continue while it is positive.  Reaching the end of the lines
with a positive count models the JS read of an out-of-range index, whose
undefined result makes the next `includes` call throw: the scan aborts. -/
def scanSpan : List String → Int → Option (List String)
  | [], _ => none
  | l :: rest, numBraces =>
      let nb := numBraces + braceDelta l
      if 0 < nb then (scanSpan rest nb).map (fun s => l :: s) else some [l]

/-- `getFunctionBody`: scan from line `i` and return the scanned span with its
first and last lines dropped, the JS `slice(1, -1)`. -/
def getFunctionBody (lines : List String) (i : Nat) : Option Body :=
  match scanSpan (lines.drop i) 0 with
  | some span => some ((span.drop 1).dropLast)
  | none => none

/-- JS `Map.prototype.get` on the association-list model. -/
def amGet : FnMap → String → Option Body
  | [], _ => none
  | p :: rest, k => if p.1 = k then some p.2 else amGet rest k

/-- JS `Map.prototype.set`: overwrite in place when the key is present, append
otherwise. -/
def amSet : FnMap → String → Body → FnMap
  | [], k, v => [(k, v)]
  | p :: rest, k, v => if p.1 = k then (k, v) :: rest else p :: amSet rest k v

/-- The key list of a map. -/
def amKeys (m : FnMap) : List String := m.map Prod.fst

/-- The `eachOfSeries` loop of `populateVisitorFunctions`, iterating the
enumerated lines in order; a failed body scan aborts the whole extraction. -/
def parseFunctionsAux (all : List String) : List (Nat × String) → FnMap → Option FnMap
  | [], acc => some acc
  | p :: rest, acc =>
      if hasMarker p.2 then
        match getFunctionBody all p.1 with
        | some b => parseFunctionsAux all rest (amSet acc (functionName p.2) b)
        | none => none
      else parseFunctionsAux all rest acc

/-- `populateVisitorFunctions`: collect the stub map of a line sequence. -/
def parseFunctions (lines : List String) : Option FnMap :=
  parseFunctionsAux lines lines.enum []

/-- JS `Set.prototype.add`: append unless already present. -/
def setAdd (s : List String) (x : String) : List String :=
  if x ∈ s then s else s ++ [x]

/-- JS `new Set(l)`: insert the elements of `l` in order into an empty set. -/
def setFrom (l : List String) : List String := l.foldl setAdd []

/-- `populateVisitorImports`: the lines containing the import marker, in order,
deduplicated by insertion into a set. -/
def parseImports (lines : List String) : List String :=
  setFrom (lines.filter (fun l => hasRequire l))

/-- `mergeImports`: copy the old import set, then add every import of the new
visitor. -/
def mergeImports (oldI newI : List String) : List String :=
  newI.foldl setAdd (setFrom oldI)

/-- The per-entry body choice of `mergeFunctions`: the old body when the old
visitor has the name, else the new generated body. -/
def resolveBody (oldF : FnMap) (kv : String × Body) : Body :=
  match amGet oldF kv.1 with
  | some w => w
  | none => kv.2

/-- One iteration of `mergeFunctions`: set the resolved body under the entry
name. -/
def mergeStep (oldF : FnMap) (acc : FnMap) (kv : String × Body) : FnMap :=
  amSet acc kv.1 (resolveBody oldF kv)

/-- `mergeFunctions`: iterate the new visitor entries, setting each resolved
body into the initially empty merged map. -/
def mergeFunctions (oldF newF : FnMap) : FnMap :=
  newF.foldl (mergeStep oldF) []

/-- The inner loop of `equalVisitors`: compare the first body to the second
index by index.  A JS read past the end of the second body yields undefined,
which never equals a string line, so the loop succeeds exactly when the first
body is a pointwise prefix of the second; modelled by simultaneous structural
recursion over the two bodies. -/
def bodyMatches : Body → Body → Bool
  | [], _ => true
  | _ :: _, [] => false
  | l :: b0, m :: b1 => l == m && bodyMatches b0 b1

/-- The per-name check of `equalVisitors`: the second map must have the name,
and the bodies must agree index by index. -/
def entryOk (v1 : FnMap) (p : String × Body) : Bool :=
  match amGet v1 p.1 with
  | some b => bodyMatches p.2 b
  | none => false

/-- `equalVisitors` of regenerateVisitor.js: equal sizes, and every entry of
the first map passes the per-name check against the second. -/
def equalVisitors (v0 v1 : FnMap) : Bool :=
  v0.length == v1.length && v0.all (entryOk v1)

/-- A missing merged body, the JS undefined returned by `get`, is spliced by
`concat` as a single undefined element, later rendered by `join` as this
text. -/
def undefinedLine : String := "undefined"

/-- The merged body spliced in for a declaration line. -/
def bodyFor (fns : FnMap) (l : String) : Body :=
  match amGet fns (functionName l) with
  | some b => b
  | none => [undefinedLine]

/-- The loop body of `mergeLines` at index `i`: when line `i` holds the
stub-declaration marker, `splice(i + 1, 1)` removes the single line right
after the declaration and the merged body is spliced in at `i + 1`. -/
def spliceAt (fns : FnMap) (ls : List String) (i : Nat) : List String :=
  if hasMarker (ls.getD i emptyLine) then
    ls.take (i + 1) ++ bodyFor fns (ls.getD i emptyLine) ++ ls.drop (i + 2)
  else ls

/-- The reverse for-loop of `mergeLines`: `mergeLinesGo fns (i + 1) ls`
processes indices i, i - 1, ..., 0 in that order. -/
def mergeLinesGo (fns : FnMap) : Nat → List String → List String
  | 0, ls => ls
  | i + 1, ls => mergeLinesGo fns i (spliceAt fns ls i)

/-- `mergeLines` of regenerateVisitor.js: copy the new visitor lines, then scan
from the last index toward the start, splicing at each marker line. -/
def mergeLines (fns : FnMap) (newLines : List String) : List String :=
  mergeLinesGo fns newLines.length newLines

/-- A parsed visitor: its raw lines and its stub map. -/
structure Visitor where
  lines : List String
  functions : FnMap
deriving DecidableEq

/-- `parseVisitor` at the line level: split lines, populate the stub map. -/
def parseVisitorModel (file : List String) : Option Visitor :=
  match parseFunctions file with
  | some fns => some ⟨file, fns⟩
  | none => none

/-- `mergeAndGenerateIfDifferent`: `none` models the skip path, in which no
merged model is built and nothing is written; `some` carries the written line
sequence. -/
def mergeAndGenerateIfDifferent (old nv : Visitor) : Option (List String) :=
  if equalVisitors old.functions nv.functions then none
  else some (mergeLines (mergeFunctions old.functions nv.functions) nv.lines)

/-- One merge invocation against the file currently on disk: parse it, skip
when equivalent leaving the file as-is, otherwise the merged lines become the
file content. -/
def mergeFile (old : Visitor) (file : List String) : Option (List String) :=
  match parseVisitorModel file with
  | none => none
  | some nv =>
      some (if equalVisitors old.functions nv.functions then file
            else mergeLines (mergeFunctions old.functions nv.functions) nv.lines)

/-- Structural equivalence in the sense of the spec: the sizes agree and each
entry of the first map is found with an identical body in the second. -/
def sameStubs (f g : FnMap) : Bool :=
  f.length == g.length && f.all (fun p => amGet g p.1 == some p.2)

/-- Sum of the per-line depth contributions of the first `n` scanned lines. -/
def presSum (ls : List String) (n : Nat) : Int :=
  ((ls.take n).map braceDelta).sum

/-- Occurrence counting as the claim words it: every opening and every closing
delimiter on a line counts. -/
def occDelta (l : String) : Int :=
  (l.toList.count openBraceChar : Int) - (l.toList.count closeBraceChar : Int)

/-- The scan as the claim words it: accumulate the occurrence-counted depth and
stop at the first line where it returns to exactly zero after having gone
positive at least once. -/
def specScanSpan : List String → Int → Bool → Option (List String)
  | [], _, _ => none
  | l :: rest, depth, pos =>
      let d := depth + occDelta l
      if pos && d == 0 then some [l]
      else (specScanSpan rest d (pos || decide (0 < d))).map (fun s => l :: s)

/-- Body extraction as the claim words it. -/
def specGetFunctionBody (lines : List String) (i : Nat) : Option Body :=
  match specScanSpan (lines.drop i) 0 false with
  | some span => some ((span.drop 1).dropLast)
  | none => none

/-- The equivalence check as the claim words it: for every stub name of the
first model the second has a body of the same length with the same text at
every index, that is, an equal body. -/
def specEquivalent (v0 v1 : FnMap) : Bool :=
  v0.length == v1.length && v0.all (fun p => amGet v1 p.1 == some p.2)

/-- The serializer step as the claim words it: at a marker line, remove the
whole placeholder span, the lines strictly between the declaration and its
matching closing line, and splice the merged body there. -/
def specSpliceAt (fns : FnMap) (ls : List String) (i : Nat) : List String :=
  if hasMarker (ls.getD i emptyLine) then
    match specScanSpan (ls.drop i) 0 false with
    | some span =>
        ls.take (i + 1) ++ bodyFor fns (ls.getD i emptyLine) ++ ls.drop (i + span.length - 1)
    | none => ls
  else ls

/-- The serializer loop as the claim words it, scanning from the end. -/
def specMergeLinesGo (fns : FnMap) : Nat → List String → List String
  | 0, ls => ls
  | i + 1, ls => specMergeLinesGo fns i (specSpliceAt fns ls i)

/-- The serializer as the claim words it. -/
def specMergeLines (fns : FnMap) (newLines : List String) : List String :=
  specMergeLinesGo fns newLines.length newLines

/-! Helper lemmas about the association-list model of a JS Map. -/

theorem bodyMatches_iff (a b : Body) : bodyMatches a b = true ↔ ∃ t, b = a ++ t := by
  induction a generalizing b with
  | nil => simp [bodyMatches]
  | cons x a ih =>
      cases b with
      | nil => simp [bodyMatches]
      | cons y b =>
          simp only [bodyMatches, Bool.and_eq_true, beq_iff_eq, ih, List.cons_append,
            List.cons.injEq]
          constructor
          · rintro ⟨rfl, t, rfl⟩; exact ⟨t, rfl, rfl⟩
          · rintro ⟨t, rfl, rfl⟩; exact ⟨rfl, t, rfl⟩

theorem bodyMatches_refl (b : Body) : bodyMatches b b = true :=
  (bodyMatches_iff b b).2 ⟨[], by simp⟩

theorem amGet_amSet (m : FnMap) (k k' : String) (v : Body) :
    amGet (amSet m k v) k' = if k' = k then some v else amGet m k' := by
  induction m with
  | nil =>
      simp only [amSet, amGet]
      by_cases h : k = k'
      · simp [h]
      · rw [if_neg h, if_neg (fun hh : k' = k => h hh.symm)]
  | cons p rest ih =>
      simp only [amSet]
      by_cases hp : p.1 = k
      · rw [if_pos hp]
        simp only [amGet]
        by_cases h : k = k'
        · simp [h]
        · rw [if_neg h, if_neg (fun hh : k' = k => h hh.symm), if_neg (hp ▸ fun hh => h hh)]
      · rw [if_neg hp]
        simp only [amGet, ih]
        by_cases hq : p.1 = k'
        · have : ¬k' = k := fun hh => hp (hq.trans hh)
          rw [if_pos hq, if_neg this, if_pos hq]
        · rw [if_neg hq]
          by_cases h : k' = k
          · rw [if_pos h, if_pos h]
          · rw [if_neg h, if_neg h, if_neg hq]

theorem amGet_eq_none_iff (m : FnMap) (k : String) : amGet m k = none ↔ k ∉ amKeys m := by
  induction m with
  | nil => simp [amGet, amKeys]
  | cons p rest ih =>
      simp only [amGet, amKeys, List.map_cons, List.mem_cons]
      by_cases hp : p.1 = k
      · simp [hp]
      · rw [if_neg hp, ih]
        constructor
        · intro h hor
          rcases hor with h1 | h2
          · exact hp h1.symm
          · exact h (by simpa [amKeys] using h2)
        · intro h h2
          exact h (Or.inr (by simpa [amKeys] using h2))

theorem mem_amKeys_of_amGet : ∀ {m : FnMap} {k : String} {b : Body},
    amGet m k = some b → k ∈ amKeys m := by
  intro m
  induction m with
  | nil => intro k b h; simp [amGet] at h
  | cons p rest ih =>
      intro k b h
      simp only [amGet] at h
      simp only [amKeys, List.map_cons, List.mem_cons]
      by_cases hp : p.1 = k
      · exact Or.inl hp.symm
      · rw [if_neg hp] at h
        exact Or.inr (by simpa [amKeys] using ih h)

theorem foldl_mergeStep_not_mem (oldF : FnMap) :
    ∀ (l : FnMap) (acc : FnMap) (k : String), k ∉ amKeys l →
      amGet (l.foldl (mergeStep oldF) acc) k = amGet acc k := by
  intro l
  induction l with
  | nil => intro acc k _; rfl
  | cons p rest ih =>
      intro acc k hk
      have h1 : ¬k = p.1 ∧ k ∉ amKeys rest := by
        simpa [amKeys, not_or] using hk
      rw [List.foldl_cons, ih _ k h1.2]
      simp [mergeStep, amGet_amSet, h1.1]

theorem foldl_mergeStep_old (oldF : FnMap) (k : String) (w : Body)
    (hw : amGet oldF k = some w) :
    ∀ (l : FnMap) (acc : FnMap), k ∈ amKeys l →
      amGet (l.foldl (mergeStep oldF) acc) k = some w := by
  intro l
  induction l with
  | nil => intro acc hk; simp [amKeys] at hk
  | cons p rest ih =>
      intro acc hk
      rw [List.foldl_cons]
      by_cases hmem : k ∈ amKeys rest
      · exact ih _ hmem
      · have hkp : k = p.1 := by
          simp only [amKeys, List.map_cons, List.mem_cons] at hk
          rcases hk with h | h
          · exact h
          · exact absurd (by simpa [amKeys] using h) hmem
        have hres : resolveBody oldF p = w := by
          unfold resolveBody
          rw [← hkp, hw]
        rw [foldl_mergeStep_not_mem oldF rest _ k hmem]
        simp [mergeStep, amGet_amSet, hkp, hres]

theorem foldl_mergeStep_new (oldF : FnMap) (k : String) (ho : amGet oldF k = none) :
    ∀ (l : FnMap) (acc : FnMap) (b : Body), (amKeys l).Nodup → amGet l k = some b →
      amGet (l.foldl (mergeStep oldF) acc) k = some b := by
  intro l
  induction l with
  | nil => intro acc b _ hb; simp [amGet] at hb
  | cons p rest ih =>
      intro acc b hnd hb
      have hnd' : p.1 ∉ amKeys rest ∧ (amKeys rest).Nodup := by
        simpa [amKeys, List.nodup_cons] using hnd
      rw [List.foldl_cons]
      simp only [amGet] at hb
      by_cases hp : p.1 = k
      · rw [if_pos hp] at hb
        have hb2 : p.2 = b := Option.some.inj hb
        rw [foldl_mergeStep_not_mem oldF rest _ k (hp ▸ hnd'.1)]
        have hres : resolveBody oldF p = b := by
          unfold resolveBody
          rw [hp, ho, hb2]
        simp [mergeStep, amGet_amSet, hp.symm, hres]
      · rw [if_neg hp] at hb
        exact ih _ b hnd'.2 hb

/-! Helper lemmas about the duplicate-free-list model of a JS Set. -/

theorem mem_setAdd (s : List String) (x y : String) :
    y ∈ setAdd s x ↔ y ∈ s ∨ y = x := by
  by_cases h : x ∈ s
  · rw [setAdd, if_pos h]
    exact ⟨fun hy => Or.inl hy, fun hy => hy.elim id (fun he => he ▸ h)⟩
  · rw [setAdd, if_neg h]
    simp

theorem mem_foldl_setAdd : ∀ (l s : List String) (x : String),
    x ∈ l.foldl setAdd s ↔ x ∈ s ∨ x ∈ l := by
  intro l
  induction l with
  | nil => simp
  | cons a l ih =>
      intro s x
      rw [List.foldl_cons, ih, mem_setAdd]
      simp [or_assoc]

theorem nodup_setAdd (s : List String) (x : String) (h : s.Nodup) :
    (setAdd s x).Nodup := by
  by_cases hx : x ∈ s
  · rw [setAdd, if_pos hx]; exact h
  · rw [setAdd, if_neg hx]
    simp [List.nodup_append, h, hx]

theorem nodup_foldl_setAdd : ∀ (l s : List String), s.Nodup → (l.foldl setAdd s).Nodup := by
  intro l
  induction l with
  | nil => intro s h; exact h
  | cons a l ih =>
      intro s h
      rw [List.foldl_cons]
      exact ih _ (nodup_setAdd s a h)

theorem foldl_setAdd_of_subset : ∀ (l s : List String), (∀ x ∈ l, x ∈ s) →
    l.foldl setAdd s = s := by
  intro l
  induction l with
  | nil => intro s _; rfl
  | cons a l ih =>
      intro s h
      rw [List.foldl_cons, setAdd, if_pos (h a (by simp))]
      exact ih s (fun x hx => h x (by simp [hx]))

theorem foldl_setAdd_disjoint : ∀ (l s : List String), l.Nodup → (∀ x ∈ l, x ∉ s) →
    l.foldl setAdd s = s ++ l := by
  intro l
  induction l with
  | nil => intro s _ _; simp
  | cons a l ih =>
      intro s hnd h
      have hnd' : a ∉ l ∧ l.Nodup := by simpa [List.nodup_cons] using hnd
      rw [List.foldl_cons, setAdd, if_neg (h a (by simp))]
      rw [ih (s ++ [a]) hnd'.2 ?_]
      · simp
      · intro x hx
        simp only [List.mem_append, List.mem_singleton]
        rintro (hs | rfl)
        · exact h x (by simp [hx]) hs
        · exact hnd'.1 hx

theorem setFrom_nodup (l : List String) : (setFrom l).Nodup :=
  nodup_foldl_setAdd l [] (by simp)

theorem setFrom_of_nodup (l : List String) (h : l.Nodup) : setFrom l = l := by
  have := foldl_setAdd_disjoint l [] h (by simp)
  simpa [setFrom] using this

/-! Helper lemmas about the brace scan. -/

theorem presSum_zero (ls : List String) : presSum ls 0 = 0 := rfl

theorem presSum_cons_succ (l : String) (rest : List String) (m : Nat) :
    presSum (l :: rest) (m + 1) = braceDelta l + presSum rest m := by
  simp [presSum, List.take_succ_cons]

theorem presSum_cons_one (l : String) (rest : List String) :
    presSum (l :: rest) 1 = braceDelta l := by
  have := presSum_cons_succ l rest 0
  simpa [presSum_zero] using this

theorem scanSpan_some : ∀ (rest : List String) (d : Int) (span : List String),
    scanSpan rest d = some span →
    ∃ n, 0 < n ∧ n ≤ rest.length ∧ d + presSum rest n ≤ 0
      ∧ (∀ m, 0 < m → m < n → 0 < d + presSum rest m)
      ∧ span = rest.take n := by
  intro rest
  induction rest with
  | nil => intro d span h; simp [scanSpan] at h
  | cons l rest ih =>
      intro d span h
      simp only [scanSpan] at h
      by_cases hb : 0 < d + braceDelta l
      · rw [if_pos hb] at h
        cases hs : scanSpan rest (d + braceDelta l) with
        | none => rw [hs] at h; simp at h
        | some s =>
            rw [hs] at h
            simp only [Option.map_some', Option.some.injEq] at h
            obtain ⟨n, hn0, hnlen, hsum, hmin, hspan⟩ := ih _ _ hs
            refine ⟨n + 1, Nat.succ_pos _, by simp; omega, ?_, ?_, ?_⟩
            · rw [presSum_cons_succ]; omega
            · intro m hm0 hmn
              cases m with
              | zero => omega
              | succ m' =>
                  rw [presSum_cons_succ]
                  rcases Nat.eq_zero_or_pos m' with hz | hpos
                  · subst hz; rw [presSum_zero]; omega
                  · have := hmin m' hpos (by omega); omega
            · rw [← h, hspan, List.take_succ_cons]
      · rw [if_neg hb] at h
        simp only [Option.some.injEq] at h
        refine ⟨1, Nat.one_pos, by simp, ?_, ?_, ?_⟩
        · rw [presSum_cons_one]; omega
        · intro m h1 h2; omega
        · rw [← h, List.take_succ_cons, List.take_zero]

theorem scanSpan_none_iff : ∀ (rest : List String) (d : Int),
    scanSpan rest d = none ↔
      ∀ m, 0 < m → m ≤ rest.length → 0 < d + presSum rest m := by
  intro rest
  induction rest with
  | nil =>
      intro d
      constructor
      · intro _ m h1 h2
        simp only [List.length_nil] at h2
        omega
      · intro _; rfl
  | cons l rest ih =>
      intro d
      simp only [scanSpan]
      by_cases hb : 0 < d + braceDelta l
      · rw [if_pos hb]
        constructor
        · intro h m hm0 hmlen
          have hn : scanSpan rest (d + braceDelta l) = none := by
            cases hs : scanSpan rest (d + braceDelta l) with
            | none => rfl
            | some s => rw [hs] at h; simp at h
          have hr := (ih (d + braceDelta l)).1 hn
          cases m with
          | zero => omega
          | succ m' =>
              rw [presSum_cons_succ]
              rcases Nat.eq_zero_or_pos m' with hz | hpos
              · subst hz; rw [presSum_zero]; omega
              · have hle : m' ≤ rest.length := by
                  simp only [List.length_cons] at hmlen; omega
                have := hr m' hpos hle
                omega
        · intro hall
          have hn : scanSpan rest (d + braceDelta l) = none := by
            rw [ih]
            intro m hm0 hmlen
            have := hall (m + 1) (Nat.succ_pos _) (by simp; omega)
            rw [presSum_cons_succ] at this
            omega
          rw [hn]; rfl
      · rw [if_neg hb]
        constructor
        · intro h; simp at h
        · intro hall
          have := hall 1 Nat.one_pos (by simp)
          rw [presSum_cons_one] at this
          omega

/-! Helper lemmas about indexed access, take and drop across an append. -/

theorem getD_append_len (p l : List String) (j : Nat) (d : String) :
    (p ++ l).getD (p.length + j) d = l.getD j d := by
  induction p with
  | nil => simp
  | cons a p ih =>
      have h1 : (a :: p).length + j = (p.length + j) + 1 := by
        simp [List.length_cons]; omega
      rw [List.cons_append, h1, List.getD_cons_succ, ih]

theorem getD_append_lt (p l : List String) (j : Nat) (d : String) (h : j < p.length) :
    (p ++ l).getD j d = p.getD j d := by
  induction p generalizing j with
  | nil => simp at h
  | cons a p ih =>
      cases j with
      | zero => rfl
      | succ j =>
          rw [List.cons_append, List.getD_cons_succ, List.getD_cons_succ]
          exact ih j (by simpa using h)

theorem take_append_len (p l : List String) (j : Nat) :
    (p ++ l).take (p.length + j) = p ++ l.take j := by
  induction p with
  | nil => simp
  | cons a p ih =>
      have h1 : (a :: p).length + j = (p.length + j) + 1 := by
        simp [List.length_cons]; omega
      rw [List.cons_append, h1, List.take_succ_cons, ih, List.cons_append]

theorem drop_append_len (p l : List String) (j : Nat) :
    (p ++ l).drop (p.length + j) = l.drop j := by
  induction p with
  | nil => simp
  | cons a p ih =>
      have h1 : (a :: p).length + j = (p.length + j) + 1 := by
        simp [List.length_cons]; omega
      rw [List.cons_append, h1, List.drop_succ_cons, ih]

theorem hasMarker_getD_false (l : List String) (h : ∀ x ∈ l, hasMarker x = false) :
    ∀ m : Nat, hasMarker (l.getD m emptyLine) = false := by
  induction l with
  | nil =>
      intro m
      show hasMarker emptyLine = false
      decide
  | cons a t ih =>
      intro m
      cases m with
      | zero => exact h a (List.mem_cons_self a t)
      | succ m =>
          rw [List.getD_cons_succ]
          exact ih (fun x hx => h x (List.mem_cons_of_mem a hx)) m

/-! Helper lemmas about the reverse serializer loop. -/

theorem mergeLinesGo_noop (fns : FnMap) : ∀ (k : Nat) (ls : List String),
    (∀ j, j < k → hasMarker (ls.getD j emptyLine) = false) →
    mergeLinesGo fns k ls = ls := by
  intro k
  induction k with
  | zero => intro ls _; rfl
  | succ k ih =>
      intro ls h
      show mergeLinesGo fns k (spliceAt fns ls k) = ls
      have hm := h k (Nat.lt_succ_self k)
      have hk : spliceAt fns ls k = ls := by
        unfold spliceAt
        rw [if_neg (by rw [hm]; simp)]
      rw [hk]
      exact ih ls (fun j hj => h j (Nat.lt_succ_of_lt hj))

theorem mergeLinesGo_skip (fns : FnMap) : ∀ (k p : Nat) (ls : List String), p ≤ k →
    (∀ j, p ≤ j → j < k → hasMarker (ls.getD j emptyLine) = false) →
    mergeLinesGo fns k ls = mergeLinesGo fns p ls := by
  intro k
  induction k with
  | zero =>
      intro p ls hp _
      rw [Nat.le_zero.1 hp]
  | succ k ih =>
      intro p ls hp h
      rcases Nat.eq_or_lt_of_le hp with heq | hlt
      · rw [heq]
      · have hpk : p ≤ k := Nat.lt_succ_iff.1 hlt
        show mergeLinesGo fns k (spliceAt fns ls k) = mergeLinesGo fns p ls
        have hm := h k hpk (Nat.lt_succ_self k)
        have hsp : spliceAt fns ls k = ls := by
          unfold spliceAt
          rw [if_neg (by rw [hm]; simp)]
        rw [hsp]
        exact ih p ls hpk (fun j h1 h2 => h j h1 (Nat.lt_succ_of_lt h2))

/-! Helper lemmas about the Differ. -/

theorem entryOk_iff (v1 : FnMap) (p : String × Body) :
    entryOk v1 p = true ↔ ∃ b t, amGet v1 p.1 = some b ∧ b = p.2 ++ t := by
  cases hg : amGet v1 p.1 with
  | none => simp [entryOk, hg]
  | some b => simp [entryOk, hg, bodyMatches_iff]

theorem equalVisitors_true_iff (v0 v1 : FnMap) :
    equalVisitors v0 v1 = true ↔
      (v0.length = v1.length ∧ ∀ p ∈ v0, ∃ b t, amGet v1 p.1 = some b ∧ b = p.2 ++ t) := by
  simp [equalVisitors, Bool.and_eq_true, List.all_eq_true, entryOk_iff, beq_iff_eq]

theorem equalVisitors_of_sameStubs (f g : FnMap) (h : sameStubs f g = true) :
    equalVisitors f g = true := by
  simp only [sameStubs, Bool.and_eq_true, List.all_eq_true, beq_iff_eq] at h
  rw [equalVisitors_true_iff]
  refine ⟨h.1, fun p hp => ?_⟩
  exact ⟨p.2, [], h.2 p hp, by simp⟩

/-! The claim theorems. -/

/-- Claim C1: for every stub name present in both the old and the new model,
the merged map holds the old body for that name line-for-line, whatever the
generated body of the new model contains. -/
theorem mergeFunctions_preserves_old_body (oldF newF : FnMap) (k : String) (w : Body)
    (hold : amGet oldF k = some w) (hnew : k ∈ amKeys newF) :
    amGet (mergeFunctions oldF newF) k = some w :=
  foldl_mergeStep_old oldF k w hold newF [] hnew

/-- Witness for the preservation theorem at a concrete pair of models. -/
theorem mergeFunctions_preserves_old_body_witness :
    amGet [("visitExpr", ["  return 1;"])] ("visitExpr") = some ["  return 1;"]
    ∧ ("visitExpr") ∈ amKeys [("visitExpr", ["  return null;"])]
    ∧ amGet (mergeFunctions [("visitExpr", ["  return 1;"])] [("visitExpr", ["  return null;"])])
        ("visitExpr") = some ["  return 1;"] :=
  ⟨by decide, by decide,
    mergeFunctions_preserves_old_body _ _ _ _ (by decide) (by decide)⟩

/-- Claim C2: a stub name present only in the new model gets the new body in
the merged map, and a stub name absent from the new model is absent from the
merged map. -/
theorem mergeFunctions_adopts_new_structure (oldF newF : FnMap) (k : String)
    (hnd : (amKeys newF).Nodup) :
    (∀ b, amGet newF k = some b → amGet oldF k = none →
        amGet (mergeFunctions oldF newF) k = some b)
    ∧ (amGet newF k = none → amGet (mergeFunctions oldF newF) k = none) := by
  constructor
  · intro b hb ho
    exact foldl_mergeStep_new oldF k ho newF [] b hnd hb
  · intro hn
    exact foldl_mergeStep_not_mem oldF newF [] k ((amGet_eq_none_iff newF k).1 hn)

/-- Witness for the adoption theorem, exercising both conjuncts on concrete
models. -/
theorem mergeFunctions_adopts_new_structure_witness :
    (amKeys [("visitBlock", ["  return null;"])]).Nodup
    ∧ amGet (mergeFunctions [("visitStmt", ["  return 2;"])] [("visitBlock", ["  return null;"])])
        ("visitBlock") = some ["  return null;"]
    ∧ amGet (mergeFunctions [("visitStmt", ["  return 2;"])] [("visitBlock", ["  return null;"])])
        ("visitStmt") = none :=
  ⟨by decide,
    (mergeFunctions_adopts_new_structure _ _ _ (by decide)).1 _ (by decide) (by decide),
    (mergeFunctions_adopts_new_structure _ _ _ (by decide)).2 (by decide)⟩

/-- Claim C3 fails as stated: the Differ answers true on a model whose body is
a proper prefix of the corresponding body in the other model, although the
claim requires equal length and equal text at every index. -/
theorem equalVisitors_spec_mismatch :
    equalVisitors [("f", ["a"])] [("f", ["a", "b"])] = true
    ∧ specEquivalent [("f", ["a"])] [("f", ["a", "b"])] = false :=
  ⟨by decide, by decide⟩

/-- Claim C3 amended: the check returns true iff the sizes agree and every
body of the first model is a line-for-line prefix of the body of the same
name in the second; with duplicate-free keys a true answer forces equal
stub-name sets. -/
theorem equalVisitors_characterization : ∀ v0 v1 : FnMap,
    (equalVisitors v0 v1 = true ↔
      (v0.length = v1.length ∧ ∀ p ∈ v0, ∃ b t, amGet v1 p.1 = some b ∧ b = p.2 ++ t))
    ∧ ((amKeys v0).Nodup → (amKeys v1).Nodup → equalVisitors v0 v1 = true →
        ∀ k, k ∈ amKeys v0 ↔ k ∈ amKeys v1) := by
  intro v0 v1
  refine ⟨equalVisitors_true_iff v0 v1, ?_⟩
  intro hnd0 hnd1 heq k
  obtain ⟨hlen, hall⟩ := (equalVisitors_true_iff v0 v1).1 heq
  have hsub : ∀ x ∈ amKeys v0, x ∈ amKeys v1 := by
    intro x hx
    obtain ⟨p, hp, hpx⟩ := List.mem_map.1 hx
    obtain ⟨b, t, hb, _⟩ := hall p hp
    exact hpx ▸ mem_amKeys_of_amGet hb
  have hfs : (amKeys v0).toFinset ⊆ (amKeys v1).toFinset := by
    intro x hx
    exact List.mem_toFinset.2 (hsub x (List.mem_toFinset.1 hx))
  have hcard : (amKeys v1).toFinset.card ≤ (amKeys v0).toFinset.card := by
    rw [List.toFinset_card_of_nodup hnd0, List.toFinset_card_of_nodup hnd1]
    simp only [amKeys, List.length_map]
    omega
  have hfeq := Finset.eq_of_subset_of_card_le hfs hcard
  rw [← List.mem_toFinset, ← List.mem_toFinset (l := amKeys v1), hfeq]

/-- Witness for the amended Differ theorem at concrete duplicate-free models. -/
theorem equalVisitors_characterization_witness :
    (amKeys [("f", ["a"]), ("g", ["b"])]).Nodup
    ∧ equalVisitors [("f", ["a"]), ("g", ["b"])] [("f", ["a"]), ("g", ["b"])] = true
    ∧ ∀ k, k ∈ amKeys [("f", ["a"]), ("g", ["b"])] ↔ k ∈ amKeys [("f", ["a"]), ("g", ["b"])] :=
  ⟨by decide, by decide,
    (equalVisitors_characterization _ _).2 (by decide) (by decide) (by decide)⟩

/-- Claim C4 fails as stated: on a line holding two opening delimiters the
extractor adds only one to the depth, because the source tests presence with
includes, so it closes the span earlier than the occurrence-counting scan the
claim describes. -/
theorem getFunctionBody_occurrence_mismatch :
    getFunctionBody ["a = function(ctx) \x7b b = \x7b", "\x7d;", "\x7d;"] 0 = some []
    ∧ specGetFunctionBody ["a = function(ctx) \x7b b = \x7b", "\x7d;", "\x7d;"] 0
        = some ["\x7d;"]
    ∧ getFunctionBody ["a = function(ctx) \x7b b = \x7b", "\x7d;", "\x7d;"] 0
        ≠ specGetFunctionBody ["a = function(ctx) \x7b b = \x7b", "\x7d;", "\x7d;"] 0 :=
  ⟨by decide, by decide, by decide⟩

/-- Claim C4 amended: a successful extraction scans the least strictly
positive number of lines whose presence-counted depth sum is no longer
positive, and returns as the body every line strictly between the first and
the last scanned line. -/
theorem getFunctionBody_presence_scan (lines : List String) (i : Nat) (b : Body)
    (h : getFunctionBody lines i = some b) :
    ∃ n, 0 < n ∧ n ≤ (lines.drop i).length ∧ presSum (lines.drop i) n ≤ 0
      ∧ (∀ m, 0 < m → m < n → 0 < presSum (lines.drop i) m)
      ∧ b = (((lines.drop i).take n).drop 1).dropLast := by
  unfold getFunctionBody at h
  split at h
  next span hs =>
    obtain ⟨n, h1, h2, h3, h4, h5⟩ := scanSpan_some _ _ _ hs
    simp only [Option.some.injEq] at h
    refine ⟨n, h1, h2, by simpa using h3, fun m hm1 hm2 => by simpa using h4 m hm1 hm2, ?_⟩
    rw [← h, h5]
  next hs => exact absurd h (by simp)

/-- Witness for the amended extraction theorem at a concrete stub. -/
theorem getFunctionBody_presence_scan_witness :
    getFunctionBody ["a = function(ctx) \x7b", "  return x;", "\x7d;"] 0
      = some ["  return x;"]
    ∧ ∃ n, 0 < n
        ∧ n ≤ ((["a = function(ctx) \x7b", "  return x;", "\x7d;"] : List String).drop 0).length
        ∧ presSum ((["a = function(ctx) \x7b", "  return x;", "\x7d;"] : List String).drop 0) n ≤ 0
        ∧ (∀ m, 0 < m → m < n →
            0 < presSum ((["a = function(ctx) \x7b", "  return x;", "\x7d;"] : List String).drop 0) m)
        ∧ ["  return x;"]
            = (((((["a = function(ctx) \x7b", "  return x;", "\x7d;"] : List String)).drop 0).take n).drop 1).dropLast :=
  ⟨by decide, getFunctionBody_presence_scan _ 0 _ (by decide)⟩

/-- Claim C5 fails as stated: extraction is not total on arbitrary content;
on a stub declaration whose delimiters never rebalance the scan reaches the
end of the lines and extraction aborts instead of finding zero stubs. -/
theorem parseFunctions_fails_on_unbalanced :
    parseFunctions ["a = function(ctx) \x7b"] = none := by decide

/-- Claim C5 amended: a body scan fails exactly when the presence-counted
depth stays positive through every remaining line, so the failure is
deterministic at the end of the line sequence; and whenever every marker line
has a successful body scan, the whole extraction succeeds. -/
theorem extraction_failure_characterization : ∀ lines : List String,
    (∀ i, getFunctionBody lines i = none ↔
      ∀ m, 0 < m → m ≤ (lines.drop i).length → 0 < presSum (lines.drop i) m)
    ∧ ((∀ p ∈ lines.enum, hasMarker p.2 = true → (getFunctionBody lines p.1).isSome = true) →
        (parseFunctions lines).isSome = true) := by
  intro lines
  constructor
  · intro i
    have hiff := scanSpan_none_iff (lines.drop i) 0
    constructor
    · intro h
      have hn : scanSpan (lines.drop i) 0 = none := by
        unfold getFunctionBody at h
        split at h
        next span hs => exact absurd h (by simp)
        next hs => exact hs
      intro m h1 h2
      simpa using hiff.1 hn m h1 h2
    · intro hall
      have hn : scanSpan (lines.drop i) 0 = none :=
        hiff.2 (fun m h1 h2 => by simpa using hall m h1 h2)
      simp [getFunctionBody, hn]
  · intro hall
    have haux : ∀ (rest : List (Nat × String)) (acc : FnMap),
        (∀ p ∈ rest, hasMarker p.2 = true → (getFunctionBody lines p.1).isSome = true) →
        (parseFunctionsAux lines rest acc).isSome = true := by
      intro rest
      induction rest with
      | nil => intro acc _; rfl
      | cons p rest ih =>
          intro acc hre
          by_cases hm : hasMarker p.2 = true
          · have hsome := hre p (by simp) hm
            cases hg : getFunctionBody lines p.1 with
            | none => rw [hg] at hsome; simp at hsome
            | some b =>
                have hstep : parseFunctionsAux lines (p :: rest) acc
                    = parseFunctionsAux lines rest (amSet acc (functionName p.2) b) := by
                  simp [parseFunctionsAux, hm, hg]
                rw [hstep]
                exact ih _ (fun q hq hq2 => hre q (by simp [hq]) hq2)
          · have hstep : parseFunctionsAux lines (p :: rest) acc
                = parseFunctionsAux lines rest acc := by
              simp [parseFunctionsAux, hm]
            rw [hstep]
            exact ih _ (fun q hq hq2 => hre q (by simp [hq]) hq2)
    exact haux lines.enum [] hall

/-- Witness for the amended extraction-failure theorem on balanced content. -/
theorem extraction_failure_characterization_witness :
    (∀ p ∈ (["a = function(ctx) \x7b", "  return x;", "\x7d;"] : List String).enum,
        hasMarker p.2 = true
        → (getFunctionBody ["a = function(ctx) \x7b", "  return x;", "\x7d;"] p.1).isSome = true)
    ∧ (parseFunctions ["a = function(ctx) \x7b", "  return x;", "\x7d;"]).isSome = true :=
  ⟨by decide, (extraction_failure_characterization _).2 (by decide)⟩

/-- Claim C6: the merged imports are the deduplicated union of both import
sets, hence a superset of each with nothing removed, and re-merging the
output against itself changes nothing. -/
theorem mergeImports_monotone : ∀ oldI newI : List String,
    (∀ x, x ∈ mergeImports oldI newI ↔ x ∈ oldI ∨ x ∈ newI)
    ∧ (mergeImports oldI newI).Nodup
    ∧ mergeImports (mergeImports oldI newI) (mergeImports oldI newI)
        = mergeImports oldI newI := by
  intro oldI newI
  have hmem : ∀ x, x ∈ mergeImports oldI newI ↔ x ∈ oldI ∨ x ∈ newI := by
    intro x
    unfold mergeImports
    rw [mem_foldl_setAdd]
    unfold setFrom
    rw [mem_foldl_setAdd]
    simp
  have hnd : (mergeImports oldI newI).Nodup :=
    nodup_foldl_setAdd newI (setFrom oldI) (setFrom_nodup oldI)
  refine ⟨hmem, hnd, ?_⟩
  show (mergeImports oldI newI).foldl setAdd (setFrom (mergeImports oldI newI))
      = mergeImports oldI newI
  rw [setFrom_of_nodup _ hnd]
  exact foldl_setAdd_of_subset _ _ (fun x hx => hx)

/-- Claim C7 fails as stated: the serializer removes exactly one line after
the declaration, so a two-line generated placeholder keeps its second line,
while the whole-span removal described by the claim drops it. -/
theorem mergeLines_span_mismatch :
    mergeLines [("a", ["B"])] ["a = function(ctx) \x7b", "  x;", "  y;", "\x7d;"]
      = ["a = function(ctx) \x7b", "B", "  y;", "\x7d;"]
    ∧ specMergeLines [("a", ["B"])] ["a = function(ctx) \x7b", "  x;", "  y;", "\x7d;"]
      = ["a = function(ctx) \x7b", "B", "\x7d;"]
    ∧ mergeLines [("a", ["B"])] ["a = function(ctx) \x7b", "  x;", "  y;", "\x7d;"]
      ≠ specMergeLines [("a", ["B"])] ["a = function(ctx) \x7b", "  x;", "  y;", "\x7d;"] :=
  ⟨by decide, by decide, by decide⟩

/-- Claim C7 amended: scanning from the end toward the start, at a marker
line the serializer removes exactly the one line immediately following the
declaration and splices the merged body in its place; lines before the
declaration, later lines, and the freshly inserted body are not rescanned. -/
theorem mergeLines_single_line_splice (fns : FnMap) (pre post body : List String)
    (decl ph : String)
    (hdecl : hasMarker decl = true)
    (hpre : ∀ x ∈ pre, hasMarker x = false)
    (hph : hasMarker ph = false)
    (hpost : ∀ x ∈ post, hasMarker x = false)
    (hget : amGet fns (functionName decl) = some body) :
    mergeLines fns (pre ++ decl :: ph :: post) = pre ++ decl :: (body ++ post) := by
  unfold mergeLines
  have hLlen : (pre ++ decl :: ph :: post).length = pre.length + 1 + (post.length + 1) := by
    simp [List.length_append, List.length_cons]
    omega
  have hskip : mergeLinesGo fns (pre ++ decl :: ph :: post).length (pre ++ decl :: ph :: post)
      = mergeLinesGo fns (pre.length + 1) (pre ++ decl :: ph :: post) := by
    apply mergeLinesGo_skip
    · omega
    · intro j h1 h2
      obtain ⟨j', rfl⟩ : ∃ j', j = pre.length + (j' + 1) := ⟨j - (pre.length + 1), by omega⟩
      rw [getD_append_len, List.getD_cons_succ]
      apply hasMarker_getD_false
      intro x hx
      rcases List.mem_cons.1 hx with rfl | hx2
      · exact hph
      · exact hpost x hx2
  rw [hskip]
  have hget0 : (pre ++ decl :: ph :: post).getD pre.length emptyLine = decl := by
    have h0 := getD_append_len pre (decl :: ph :: post) 0 emptyLine
    simpa using h0
  have hsplice : spliceAt fns (pre ++ decl :: ph :: post) pre.length
      = pre ++ decl :: (body ++ post) := by
    unfold spliceAt
    rw [hget0, if_pos hdecl]
    have ht : (pre ++ decl :: ph :: post).take (pre.length + 1) = pre ++ [decl] := by
      have h0 := take_append_len pre (decl :: ph :: post) 1
      rw [show (decl :: ph :: post).take 1 = [decl] from rfl] at h0
      exact h0
    have hd : (pre ++ decl :: ph :: post).drop (pre.length + 2) = post := by
      have h0 := drop_append_len pre (decl :: ph :: post) 2
      rw [show (decl :: ph :: post).drop 2 = post from rfl] at h0
      exact h0
    rw [ht, hd]
    simp [bodyFor, hget]
  show mergeLinesGo fns pre.length (spliceAt fns (pre ++ decl :: ph :: post) pre.length)
      = pre ++ decl :: (body ++ post)
  rw [hsplice]
  apply mergeLinesGo_noop
  intro j hj
  rw [getD_append_lt _ _ _ _ hj]
  exact hasMarker_getD_false pre hpre j

/-- Witness for the amended serializer theorem at a concrete file shape. -/
theorem mergeLines_single_line_splice_witness :
    hasMarker ("a = function(ctx) \x7b") = true
    ∧ (∀ x ∈ (["// header"] : List String), hasMarker x = false)
    ∧ hasMarker ("  return;") = false
    ∧ (∀ x ∈ (["\x7d;"] : List String), hasMarker x = false)
    ∧ amGet [("a", ["  B;", "  C;"])] (functionName ("a = function(ctx) \x7b"))
        = some ["  B;", "  C;"]
    ∧ mergeLines [("a", ["  B;", "  C;"])]
        (["// header"] ++ ("a = function(ctx) \x7b") :: ("  return;") :: ["\x7d;"])
      = ["// header"] ++ ("a = function(ctx) \x7b") :: (["  B;", "  C;"] ++ ["\x7d;"]) :=
  ⟨by decide, by decide, by decide, by decide, by decide,
    mergeLines_single_line_splice _ _ _ _ _ _ (by decide) (by decide) (by decide)
      (by decide) (by decide)⟩

/-- Claim C8: when the Differ reports the two models equivalent the merge
path is skipped: no merged model is built and nothing is written, leaving the
regenerated file as-is. -/
theorem merge_skipped_when_equivalent (old nv : Visitor)
    (h : equalVisitors old.functions nv.functions = true) :
    mergeAndGenerateIfDifferent old nv = none := by
  simp [mergeAndGenerateIfDifferent, h]

/-- Witness for the skip theorem at two concrete equivalent visitors. -/
theorem merge_skipped_when_equivalent_witness :
    equalVisitors (Visitor.mk ["x"] [("a", ["b"])]).functions
        (Visitor.mk ["y"] [("a", ["b"])]).functions = true
    ∧ mergeAndGenerateIfDifferent (Visitor.mk ["x"] [("a", ["b"])])
        (Visitor.mk ["y"] [("a", ["b"])]) = none :=
  ⟨by decide, merge_skipped_when_equivalent _ _ (by decide)⟩

/-- Claim C9: when the file on disk parses to a model with the same stub
names and bodies as the backup model, the Differ answers true, the merge
leaves the file unchanged, and merging twice in a row equals merging once. -/
theorem noop_regeneration_idempotent (old nv : Visitor) (file : List String)
    (h1 : parseVisitorModel file = some nv)
    (h2 : sameStubs old.functions nv.functions = true) :
    equalVisitors old.functions nv.functions = true
    ∧ mergeFile old file = some file
    ∧ (mergeFile old file).bind (mergeFile old) = mergeFile old file := by
  have he := equalVisitors_of_sameStubs _ _ h2
  have h3 : mergeFile old file = some file := by
    simp [mergeFile, h1, he]
  refine ⟨he, h3, ?_⟩
  rw [h3]
  simpa using h3

/-- Witness for the idempotence theorem at a concrete regenerated file. -/
theorem noop_regeneration_idempotent_witness :
    parseVisitorModel ["a = function(ctx) \x7b", "  return ctx;", "\x7d;"]
      = some (Visitor.mk ["a = function(ctx) \x7b", "  return ctx;", "\x7d;"]
          [("a", ["  return ctx;"])])
    ∧ sameStubs (Visitor.mk ["old header"] [("a", ["  return ctx;"])]).functions
        (Visitor.mk ["a = function(ctx) \x7b", "  return ctx;", "\x7d;"]
          [("a", ["  return ctx;"])]).functions = true
    ∧ (equalVisitors (Visitor.mk ["old header"] [("a", ["  return ctx;"])]).functions
          (Visitor.mk ["a = function(ctx) \x7b", "  return ctx;", "\x7d;"]
            [("a", ["  return ctx;"])]).functions = true
        ∧ mergeFile (Visitor.mk ["old header"] [("a", ["  return ctx;"])])
            ["a = function(ctx) \x7b", "  return ctx;", "\x7d;"]
          = some ["a = function(ctx) \x7b", "  return ctx;", "\x7d;"]
        ∧ (mergeFile (Visitor.mk ["old header"] [("a", ["  return ctx;"])])
              ["a = function(ctx) \x7b", "  return ctx;", "\x7d;"]).bind
            (mergeFile (Visitor.mk ["old header"] [("a", ["  return ctx;"])]))
          = mergeFile (Visitor.mk ["old header"] [("a", ["  return ctx;"])])
              ["a = function(ctx) \x7b", "  return ctx;", "\x7d;"]) :=
  ⟨by decide, by decide,
    noop_regeneration_idempotent _ _ _ (by decide) (by decide)⟩

/-- Claim C10: for every marker line the derived stub name is the prefix of
the line ending two characters before the first assignment character; without
any assignment character the name is empty, and within one file all such
stubs collapse onto the single empty key. -/
theorem functionName_derivation :
    (∀ l : String, hasMarker l = true →
      ((l.toList.contains eqChar = true →
          functionName l
            = String.mk (l.toList.take (l.toList.findIdx (fun c => c == eqChar) - 1)))
        ∧ (l.toList.contains eqChar = false → functionName l = emptyLine)))
    ∧ parseFunctions ["f function(ctx) \x7b", "\x7d", "g function(ctx) \x7b", "\x7d"]
        = some [(emptyLine, [])] := by
  constructor
  · intro l _
    constructor
    · intro hc
      unfold functionName
      rw [if_pos hc]
    · intro hc
      unfold functionName
      rw [if_neg (by rw [hc]; simp)]
  · decide

/-- Witness for the name-derivation theorem at a concrete marker line with no
assignment character. -/
theorem functionName_derivation_witness :
    hasMarker ("f function(ctx) \x7b") = true
    ∧ ("f function(ctx) \x7b" : String).toList.contains eqChar = false
    ∧ functionName ("f function(ctx) \x7b") = emptyLine :=
  ⟨by decide, by decide,
    (functionName_derivation.1 ("f function(ctx) \x7b") (by decide)).2 (by decide)⟩

end FdmmTools
